import Mathlib

/-!
Verification of the sagepy search-and-score pipeline (SAGE proteomics search
engine, Python interface).  The repository ships the pipeline behind a
compiled connector, so the component implementations are modelled here from
the specification: each definition marked `Modelled from the spec:` is a
shallow embedding of the component the spec describes, with masses, scores
and intensities as rationals.
-/

namespace Sagepy

/-- Modelled from the spec: a candidate peptide entry of the indexed
database (§3 data model).  `ix` is the integer index the database assigns
to the entry in its flat storage; `decoy` marks decoy entries. -/
structure Peptide where
  sequence : List Char
  monoisotopic_mass : ℚ
  missed_cleavages : Nat
  decoy : Bool
  ix : Nat
deriving DecidableEq, Repr

/-- Modelled from the spec: a mass tolerance, expressed either in
parts-per-million or absolute Daltons, with independently configurable
lower/upper bounds (asymmetric windows supported, §4.4/§6). -/
inductive Tolerance where
  | ppm (lo hi : ℚ)
  | da (lo hi : ℚ)
deriving DecidableEq, Repr

/-- Modelled from the spec: the tolerance window around a center mass `m`:
ppm bounds scale multiplicatively (`m·(1+lo/1e6)`, `m·(1+hi/1e6)`), Da
bounds are additive. -/
def Tolerance.window : Tolerance → ℚ → ℚ × ℚ
  | .ppm lo hi, m => (m * (1 + lo / 1000000), m * (1 + hi / 1000000))
  | .da lo hi, m => (m + lo, m + hi)

/-- Modelled from the spec: the indexed database owns the full set of
peptide entries (targets + decoys) sorted by monoisotopic mass, partitioned
into fixed-capacity mass buckets (§3/§4.2).  Buckets are the contiguous
chunks of `entries` of size `bucket_size`; they are recomputed from the
entry list by the query path, which is observationally the same as storing
them. -/
structure IndexedDatabase where
  entries : List Peptide
  bucket_size : Nat
deriving DecidableEq, Repr

/-- Fuel-driven worker for `chunkList`: peels off chunks of `bsPred + 1`
elements; the fuel (initialised to the list length) only bounds the
recursion depth. -/
def chunkGo (bsPred : Nat) : Nat → List Peptide → List (List Peptide)
  | 0, _ => []
  | _ + 1, [] => []
  | fuel + 1, x :: xs => (x :: xs.take bsPred) :: chunkGo bsPred fuel (xs.drop bsPred)

/-- Splits a list into contiguous chunks of size `bsPred + 1`. -/
def chunkList (bsPred : Nat) (l : List Peptide) : List (List Peptide) :=
  chunkGo bsPred l.length l

theorem flatten_chunkGo (bsPred : Nat) :
    ∀ (fuel : Nat) (l : List Peptide), l.length ≤ fuel →
      (chunkGo bsPred fuel l).flatten = l := by
  intro fuel
  induction fuel with
  | zero =>
    intro l hl
    rw [Nat.le_zero] at hl
    rw [List.length_eq_zero] at hl
    subst hl
    rfl
  | succ fuel ih =>
    intro l hl
    cases l with
    | nil => rfl
    | cons x xs =>
      simp only [chunkGo, List.flatten_cons]
      rw [ih (xs.drop bsPred) ?_]
      · simp
      · simp only [List.length_drop]
        simp only [List.length_cons] at hl
        omega

/-- Modelled from the spec: a bucket is consulted exactly when its mass
range intersects the query window `[lo, hi]` — i.e. unless every entry lies
strictly below `lo` or strictly above `hi` (§4.2 "each bucket records its
mass range"). -/
def bucketHit (lo hi : ℚ) (b : List Peptide) : Bool :=
  b.any (fun p => lo ≤ p.monoisotopic_mass) && b.any (fun p => p.monoisotopic_mass ≤ hi)

/-- Modelled from the spec: `candidates(neutral_mass, tolerance)` — range
query over the bucketed index: select the buckets whose recorded mass range
intersects the tolerance window, then keep the entries whose mass falls in
the window (§4.2 query contract). -/
def candidates (db : IndexedDatabase) (neutral_mass : ℚ) (tolerance : Tolerance) : List Peptide :=
  let w := tolerance.window neutral_mass
  let buckets := chunkList (db.bucket_size - 1) db.entries
  ((buckets.filter (bucketHit w.1 w.2)).flatten).filter
    (fun p => decide (w.1 ≤ p.monoisotopic_mass) && decide (p.monoisotopic_mass ≤ w.2))

theorem flatten_chunkList (bsPred : Nat) (l : List Peptide) :
    (chunkList bsPred l).flatten = l :=
  flatten_chunkGo bsPred l.length l (Nat.le_refl _)

theorem mem_chunkList_of_mem {bsPred : Nat} {l : List Peptide} {p : Peptide}
    (h : p ∈ l) : ∃ b ∈ chunkList bsPred l, p ∈ b := by
  have : p ∈ (chunkList bsPred l).flatten := by
    rw [flatten_chunkList]; exact h
  simpa using List.mem_flatten.mp this

theorem mem_of_mem_chunkList {bsPred : Nat} {l : List Peptide} {b : List Peptide}
    {p : Peptide} (hb : b ∈ chunkList bsPred l) (hp : p ∈ b) : p ∈ l := by
  have : p ∈ (chunkList bsPred l).flatten := List.mem_flatten.mpr ⟨b, hb, hp⟩
  rwa [flatten_chunkList] at this

/-! ### Generic insertion sort on a boolean order, used by the Scorer and
the FDR estimator (both re-establish order by sorting). -/

/-- Inserts `a` into `l` before the first element `b` with `le a b`. -/
def insertLe {α : Type} (le : α → α → Bool) (a : α) : List α → List α
  | [] => [a]
  | b :: bs => if le a b then a :: b :: bs else b :: insertLe le a bs

/-- Stable insertion sort by the boolean order `le`. -/
def sortByLe {α : Type} (le : α → α → Bool) : List α → List α
  | [] => []
  | a :: as => insertLe le a (sortByLe le as)

/-- `le` relates every pair in at least one direction. -/
def TotalLe {α : Type} (le : α → α → Bool) : Prop :=
  ∀ a b, le a b = true ∨ le b a = true

theorem mem_insertLe {α : Type} (le : α → α → Bool) (a x : α) (l : List α) :
    x ∈ insertLe le a l ↔ x = a ∨ x ∈ l := by
  induction l with
  | nil => simp [insertLe]
  | cons b bs ih =>
    simp only [insertLe]
    split
    · simp [List.mem_cons]
    · simp only [List.mem_cons, ih]
      tauto

theorem length_insertLe {α : Type} (le : α → α → Bool) (a : α) (l : List α) :
    (insertLe le a l).length = l.length + 1 := by
  induction l with
  | nil => simp [insertLe]
  | cons b bs ih =>
    simp only [insertLe]
    split <;> simp [ih]

theorem mem_sortByLe {α : Type} (le : α → α → Bool) (x : α) (l : List α) :
    x ∈ sortByLe le l ↔ x ∈ l := by
  induction l with
  | nil => simp [sortByLe]
  | cons a as ih =>
    simp [sortByLe, mem_insertLe, ih]

theorem length_sortByLe {α : Type} (le : α → α → Bool) (l : List α) :
    (sortByLe le l).length = l.length := by
  induction l with
  | nil => rfl
  | cons a as ih => simp [sortByLe, length_insertLe, ih]

/-- Boolean check that consecutive elements are related by `le`. -/
def chainB {α : Type} (le : α → α → Bool) : List α → Bool
  | [] => true
  | [_] => true
  | a :: b :: t => le a b && chainB le (b :: t)

theorem chainB_iff {α : Type} (le : α → α → Bool) (l : List α) :
    chainB le l = true ↔ List.Chain' (fun a b => le a b = true) l := by
  induction l with
  | nil => simp [chainB]
  | cons a t ih =>
    cases t with
    | nil => simp [chainB]
    | cons b t' =>
      simp only [chainB, Bool.and_eq_true, List.chain'_cons] at ih ⊢
      rw [ih]

theorem chain'_insertLe {α : Type} {le : α → α → Bool} (htot : TotalLe le) (a : α)
    {l : List α} (h : List.Chain' (fun x y => le x y = true) l) :
    List.Chain' (fun x y => le x y = true) (insertLe le a l) := by
  induction l with
  | nil => simp [insertLe]
  | cons b bs ih =>
    simp only [insertLe]
    by_cases h1 : le a b = true
    · simp only [h1, if_true]
      exact List.chain'_cons.mpr ⟨h1, h⟩
    · simp only [h1, if_false]
      have hba : le b a = true := (htot a b).resolve_left h1
      apply List.chain'_cons'.mpr
      refine ⟨?_, ih h.tail⟩
      intro y hy
      cases bs with
      | nil =>
        simp only [insertLe, List.head?_cons, Option.mem_def, Option.some.injEq] at hy
        subst hy; exact hba
      | cons c cs =>
        simp only [insertLe] at hy
        by_cases h2 : le a c = true
        · simp only [h2, if_true, List.head?_cons, Option.mem_def, Option.some.injEq] at hy
          subst hy; exact hba
        · simp only [h2, Bool.false_eq_true, if_false, List.head?_cons, Option.mem_def,
            Option.some.injEq] at hy
          subst hy
          exact (List.chain'_cons.mp h).1

theorem chain'_sortByLe {α : Type} {le : α → α → Bool} (htot : TotalLe le) (l : List α) :
    List.Chain' (fun x y => le x y = true) (sortByLe le l) := by
  induction l with
  | nil => simp [sortByLe]
  | cons a as ih => exact chain'_insertLe htot a ih

/-! ### Scorer (PSM engine) -/

/-- Modelled from the spec: a scoring-ready query — top-N-filtered peak
list (m/z, intensity pairs) plus precursor neutral-mass hypotheses, one per
plausible charge/isotope combination (§3). -/
structure ProcessedSpectrum where
  spec_id : String
  file_id : Nat
  peaks : List (ℚ × ℚ)
  precursor_masses : List ℚ
deriving DecidableEq, Repr

/-- Modelled from the spec: scorer configuration (§6): precursor and
fragment tolerances, `report_psms`, `min_matched_peaks`. -/
structure ScorerConfig where
  precursor_tolerance : Tolerance
  fragment_tolerance : Tolerance
  report_psms : Nat
  min_matched_peaks : Nat
deriving DecidableEq, Repr

/-- Modelled from the spec: a scored peptide-spectrum hypothesis (§3).
Fields the pipeline later overwrites (q-values, aligned/predicted RT) are
present; score components not inspected by any property (Poisson estimate,
score gaps, longest runs) are omitted. -/
structure Feature where
  idx : Nat
  rank : Nat
  label : Int
  expmass : ℚ
  calcmass : ℚ
  peptide_len : Nat
  matched_peaks : Nat
  hyperscore : ℚ
  matched_intensity_pct : ℚ
  spectrum_q : ℚ
  peptide_q : ℚ
  protein_q : ℚ
  aligned_rt : ℚ
  predicted_rt : ℚ
deriving DecidableEq, Inhabited, Repr

/-- Monoisotopic residue masses (4-decimal rationals). -/
def residueMass (c : Char) : ℚ :=
  if c = 'G' then 570215/10000 else if c = 'A' then 710371/10000 else
  if c = 'S' then 870320/10000 else if c = 'P' then 970528/10000 else
  if c = 'V' then 990684/10000 else if c = 'T' then 1010477/10000 else
  if c = 'C' then 1030092/10000 else if c = 'L' then 1130841/10000 else
  if c = 'I' then 1130841/10000 else if c = 'N' then 1140429/10000 else
  if c = 'D' then 1150269/10000 else if c = 'Q' then 1280586/10000 else
  if c = 'K' then 1280949/10000 else if c = 'E' then 1290426/10000 else
  if c = 'M' then 1310405/10000 else if c = 'H' then 1370589/10000 else
  if c = 'F' then 1470684/10000 else if c = 'R' then 1561011/10000 else
  if c = 'Y' then 1630633/10000 else if c = 'W' then 1860793/10000 else 0

def waterMass : ℚ := 180106/10000

def protonMass : ℚ := 10073/10000

/-- Modelled from the spec: peptide monoisotopic mass = sum of residue
masses plus the water terminus (§3 invariant; modification deltas enter
through the residue masses of the modified sequence). -/
def peptideMass (seq : List Char) : ℚ :=
  seq.foldr (fun c acc => residueMass c + acc) waterMass

/-- Modelled from the spec: theoretical singly-charged b-ion series of a
peptide (cumulative N-terminal residue sums plus a proton), §4.4. -/
def bIonMasses (seq : List Char) : List ℚ :=
  (List.range (seq.length - 1)).map
    (fun i => (seq.take (i + 1)).foldr (fun c acc => residueMass c + acc) protonMass)

/-- Modelled from the spec: theoretical singly-charged y-ion series
(cumulative C-terminal residue sums plus water and a proton), §4.4. -/
def yIonMasses (seq : List Char) : List ℚ :=
  (List.range (seq.length - 1)).map
    (fun i => (seq.drop (seq.length - (i + 1))).foldr
      (fun c acc => residueMass c + acc) (waterMass + protonMass))

/-- An observed peak at `mz` matches a theoretical fragment mass when it
falls inside the fragment tolerance window around the fragment. -/
def peakMatches (ftol : Tolerance) (frag mz : ℚ) : Bool :=
  decide ((ftol.window frag).1 ≤ mz) && decide (mz ≤ (ftol.window frag).2)

/-- Number of theoretical fragments with at least one matching peak. -/
def countMatched (ftol : Tolerance) (peaks : List (ℚ × ℚ)) (frags : List ℚ) : Nat :=
  frags.countP (fun f => peaks.any (fun pk => peakMatches ftol f pk.1))

/-- Summed intensity of the observed peaks matched by some fragment. -/
def matchedIntensity (ftol : Tolerance) (peaks : List (ℚ × ℚ)) (frags : List ℚ) : ℚ :=
  ((peaks.filter (fun pk => frags.any (fun f => peakMatches ftol f pk.1))).map
    (fun pk => pk.2)).sum

def totalIntensity (peaks : List (ℚ × ℚ)) : ℚ := (peaks.map (fun pk => pk.2)).sum

def factQ (n : Nat) : ℚ := (Nat.factorial n : ℚ)

/-- Modelled from the spec: scoring one candidate against one neutral-mass
hypothesis (§4.4).  The log-factorial-weighted hyperscore is embedded by
its exponential — the order-isomorphic product `nb! · ny! · (1+Ib) · (1+Iy)`
— since the log is strictly monotone and only the ranking is observed.
Freshly constructed features carry q-values of 1 and aligned/predicted RT
of 0, to be overwritten by later pipeline stages. -/
def mkFeature (cfg : ScorerConfig) (spectrum : ProcessedSpectrum) (hypMass : ℚ)
    (p : Peptide) : Feature :=
  let bs := bIonMasses p.sequence
  let ys := yIonMasses p.sequence
  let nb := countMatched cfg.fragment_tolerance spectrum.peaks bs
  let ny := countMatched cfg.fragment_tolerance spectrum.peaks ys
  let ib := matchedIntensity cfg.fragment_tolerance spectrum.peaks bs
  let iy := matchedIntensity cfg.fragment_tolerance spectrum.peaks ys
  let total := totalIntensity spectrum.peaks
  { idx := p.ix
    rank := 0
    label := if p.decoy then -1 else 1
    expmass := hypMass
    calcmass := p.monoisotopic_mass
    peptide_len := p.sequence.length
    matched_peaks := nb + ny
    hyperscore := factQ nb * factQ ny * (1 + ib) * (1 + iy)
    matched_intensity_pct := if total = 0 then 0 else 100 * (ib + iy) / total
    spectrum_q := 1
    peptide_q := 1
    protein_q := 1
    aligned_rt := 0
    predicted_rt := 0 }

/-- Modelled from the spec: the ranking order of §4.4 — descending primary
score, ties broken by descending matched-intensity percentage, then by
ascending peptide index. -/
def featLeB (a b : Feature) : Bool :=
  if a.hyperscore = b.hyperscore then
    if a.matched_intensity_pct = b.matched_intensity_pct then decide (a.idx ≤ b.idx)
    else decide (b.matched_intensity_pct < a.matched_intensity_pct)
  else decide (b.hyperscore < a.hyperscore)

/-- The strict version of the §4.4 ranking order: strictly descending
score, ties broken strictly by the further keys. -/
def featLtB (a b : Feature) : Bool :=
  if a.hyperscore = b.hyperscore then
    if a.matched_intensity_pct = b.matched_intensity_pct then decide (a.idx < b.idx)
    else decide (b.matched_intensity_pct < a.matched_intensity_pct)
  else decide (b.hyperscore < a.hyperscore)

/-- Numbers the features of an already-ranked list with ranks `n, n+1, …`. -/
def assignRanks : Nat → List Feature → List Feature
  | _, [] => []
  | n, f :: fs => { f with rank := n } :: assignRanks (n + 1) fs

/-- Modelled from the spec: `score(db, spectrum, config)` (§4.4).  For each
neutral-mass hypothesis the database is queried under the precursor
tolerance; every candidate is scored by fragment matching; candidates below
`min_matched_peaks` are discarded; survivors (targets and decoys
interleaved) are ranked by `featLeB` and the top `report_psms` are
rank-numbered from 1 and returned. -/
def score (db : IndexedDatabase) (spectrum : ProcessedSpectrum) (cfg : ScorerConfig) :
    List Feature :=
  let feats := (spectrum.precursor_masses.map (fun m =>
    (candidates db m cfg.precursor_tolerance).map (mkFeature cfg spectrum m))).flatten
  let kept := feats.filter (fun f => decide (cfg.min_matched_peaks ≤ f.matched_peaks))
  assignRanks 1 ((sortByLe featLeB kept).take cfg.report_psms)

theorem length_assignRanks (n : Nat) (l : List Feature) :
    (assignRanks n l).length = l.length := by
  induction l generalizing n with
  | nil => rfl
  | cons f fs ih => simp [assignRanks, ih]

theorem mem_assignRanks {f : Feature} {n : Nat} {l : List Feature}
    (h : f ∈ assignRanks n l) : ∃ g ∈ l, ∃ r, f = { g with rank := r } := by
  induction l generalizing n with
  | nil => simp [assignRanks] at h
  | cons g gs ih =>
    simp only [assignRanks, List.mem_cons] at h
    rcases h with h | h
    · exact ⟨g, List.mem_cons_self g gs, n, h⟩
    · obtain ⟨g', hg', r, hr⟩ := ih h
      exact ⟨g', List.mem_cons_of_mem _ hg', r, hr⟩

theorem map_rank_assignRanks (n : Nat) (l : List Feature) :
    (assignRanks n l).map Feature.rank = List.range' n l.length := by
  induction l generalizing n with
  | nil => rfl
  | cons f fs ih => simp [assignRanks, ih, List.range'_succ]

theorem featLeB_rank_invariant (a b : Feature) (r s : Nat) :
    featLeB { a with rank := r } { b with rank := s } = featLeB a b := by
  simp [featLeB]

theorem chain'_assignRanks (n : Nat) {l : List Feature}
    (h : List.Chain' (fun a b => featLeB a b = true) l) :
    List.Chain' (fun a b => featLeB a b = true) (assignRanks n l) := by
  induction l generalizing n with
  | nil => simp [assignRanks]
  | cons f fs ih =>
    simp only [assignRanks]
    apply List.chain'_cons'.mpr
    refine ⟨?_, ih (n + 1) h.tail⟩
    intro y hy
    cases fs with
    | nil => simp [assignRanks] at hy
    | cons g gs =>
      simp only [assignRanks, List.head?_cons, Option.mem_def, Option.some.injEq] at hy
      subst hy
      rw [featLeB_rank_invariant]
      exact (List.chain'_cons.mp h).1

theorem featLeB_total : TotalLe featLeB := by
  intro a b
  unfold featLeB
  by_cases h1 : a.hyperscore = b.hyperscore
  · rw [if_pos h1, if_pos h1.symm]
    by_cases h2 : a.matched_intensity_pct = b.matched_intensity_pct
    · rw [if_pos h2, if_pos h2.symm]
      simp only [decide_eq_true_eq]
      exact Nat.le_total a.idx b.idx
    · rw [if_neg h2, if_neg (Ne.symm h2)]
      simp only [decide_eq_true_eq]
      exact lt_or_gt_of_ne (Ne.symm h2)
  · rw [if_neg h1, if_neg (Ne.symm h1)]
    simp only [decide_eq_true_eq]
    exact lt_or_gt_of_ne (Ne.symm h1)

theorem chain'_take {α : Type} {R : α → α → Prop} {l : List α}
    (h : List.Chain' R l) (n : Nat) : List.Chain' R (l.take n) :=
  h.take n

/-- Decomposes membership in the scorer output: every returned feature is
a rank-renumbered copy of a scored candidate that passed the
`min_matched_peaks` filter. -/
theorem score_mem_shape {db : IndexedDatabase} {spectrum : ProcessedSpectrum}
    {cfg : ScorerConfig} {f : Feature} (h : f ∈ score db spectrum cfg) :
    ∃ m ∈ spectrum.precursor_masses, ∃ p ∈ candidates db m cfg.precursor_tolerance,
      ∃ r, f = { mkFeature cfg spectrum m p with rank := r } ∧
        cfg.min_matched_peaks ≤ (mkFeature cfg spectrum m p).matched_peaks := by
  unfold score at h
  obtain ⟨g, hg, r, hr⟩ := mem_assignRanks h
  have hg' : g ∈ sortByLe featLeB _ := (List.take_sublist _ _).subset hg
  rw [mem_sortByLe] at hg'
  have hg'' := List.mem_filter.mp hg'
  obtain ⟨l, hl, hgl⟩ := List.mem_flatten.mp hg''.1
  obtain ⟨m, hm, hlm⟩ := List.mem_map.mp hl
  subst hlm
  obtain ⟨p, hp, hpg⟩ := List.mem_map.mp hgl
  subst hpg
  have hmin : cfg.min_matched_peaks ≤ (mkFeature cfg spectrum m p).matched_peaks := by
    have := hg''.2
    simpa using this
  exact ⟨m, hm, p, hp, r, hr, hmin⟩

theorem score_length_le (db : IndexedDatabase) (spectrum : ProcessedSpectrum)
    (cfg : ScorerConfig) : (score db spectrum cfg).length ≤ cfg.report_psms := by
  unfold score
  rw [length_assignRanks]
  exact (List.length_take _ _).le.trans (Nat.min_le_left _ _)

end Sagepy

namespace Sagepy

/-- C1: for every indexed database and every (neutral_mass, tolerance)
query, `candidates` returns exactly the set of database entries whose
monoisotopic mass lies in the tolerance window: no entry in the window is
omitted and no entry outside the window is returned. -/
theorem candidates_complete_and_sound
    (db : IndexedDatabase) (neutral_mass : ℚ) (tolerance : Tolerance) (p : Peptide) :
    p ∈ candidates db neutral_mass tolerance ↔
      p ∈ db.entries ∧
        (tolerance.window neutral_mass).1 ≤ p.monoisotopic_mass ∧
        p.monoisotopic_mass ≤ (tolerance.window neutral_mass).2 := by
  unfold candidates
  constructor
  · intro h
    have h' := List.mem_filter.mp h
    have hmem : p ∈ ((chunkList (db.bucket_size - 1) db.entries).filter
        (bucketHit (tolerance.window neutral_mass).1 (tolerance.window neutral_mass).2)).flatten :=
      h'.1
    obtain ⟨b, hb, hpb⟩ := List.mem_flatten.mp hmem
    have hb' := List.mem_filter.mp hb
    refine ⟨mem_of_mem_chunkList hb'.1 hpb, ?_, ?_⟩
    · have := h'.2
      simp only [Bool.and_eq_true, decide_eq_true_eq] at this
      exact this.1
    · have := h'.2
      simp only [Bool.and_eq_true, decide_eq_true_eq] at this
      exact this.2
  · rintro ⟨hmem, hlo, hhi⟩
    obtain ⟨b, hb, hpb⟩ :=
      @mem_chunkList_of_mem (db.bucket_size - 1) db.entries p hmem
    apply List.mem_filter.mpr
    constructor
    · apply List.mem_flatten.mpr
      refine ⟨b, ?_, hpb⟩
      apply List.mem_filter.mpr
      refine ⟨hb, ?_⟩
      unfold bucketHit
      simp only [Bool.and_eq_true, List.any_eq_true, decide_eq_true_eq]
      exact ⟨⟨p, hpb, hlo⟩, ⟨p, hpb, hhi⟩⟩
    · simp only [Bool.and_eq_true, decide_eq_true_eq]
      exact ⟨hlo, hhi⟩

end Sagepy

namespace Sagepy

/-- A two-residue demo peptide (`GK`) used as concrete input. -/
def demoPeptide : Peptide :=
  { sequence := ['G', 'K']
    monoisotopic_mass := peptideMass ['G', 'K']
    missed_cleavages := 0
    decoy := false
    ix := 7 }

/-- A one-entry demo database. -/
def demoDb : IndexedDatabase := { entries := [demoPeptide], bucket_size := 16 }

/-- A demo query whose two peaks sit exactly on the b1/y1 ions of the demo
peptide and which carries two precursor neutral-mass hypotheses that both
select it. -/
def demoSpec : ProcessedSpectrum :=
  { spec_id := "DEMO"
    file_id := 1
    peaks := [(580288/10000, 100), (1471128/10000, 50)]
    precursor_masses := [peptideMass ['G', 'K'], peptideMass ['G', 'K'] + 1/2] }

/-- A demo scorer configuration. -/
def demoCfg : ScorerConfig :=
  { precursor_tolerance := Tolerance.da (-1) 1
    fragment_tolerance := Tolerance.da (-1/100) (1/100)
    report_psms := 2
    min_matched_peaks := 2 }

/-- C2: for every database, processed spectrum and scorer configuration,
`score` returns a sequence of at most `report_psms` features, and every
candidate whose matched peak count is below `min_matched_peaks` is
discarded — no returned feature has fewer than `min_matched_peaks` matched
peaks. -/
theorem score_bounded_and_filtered
    (db : IndexedDatabase) (spectrum : ProcessedSpectrum) (cfg : ScorerConfig) :
    (score db spectrum cfg).length ≤ cfg.report_psms ∧
      ∀ f, f ∈ score db spectrum cfg → cfg.min_matched_peaks ≤ f.matched_peaks := by
  refine ⟨score_length_le db spectrum cfg, ?_⟩
  intro f hf
  obtain ⟨m, _, p, _, r, hr, hmin⟩ := score_mem_shape hf
  subst hr
  exact hmin

unseal Rat.add Rat.mul Rat.inv Rat.sub in
/-- Witness for C2: the demo scenario returns a nonempty feature list whose
head satisfies the `min_matched_peaks` bound, and the list length respects
`report_psms`. -/
theorem score_bounded_and_filtered_witness :
    (score demoDb demoSpec demoCfg).length ≤ demoCfg.report_psms ∧
      demoCfg.min_matched_peaks ≤
        ((score demoDb demoSpec demoCfg).headD default).matched_peaks :=
  ⟨(score_bounded_and_filtered demoDb demoSpec demoCfg).1,
   (score_bounded_and_filtered demoDb demoSpec demoCfg).2 _ (by decide)⟩

unseal Rat.add Rat.mul Rat.inv Rat.sub in
/-- C3 counterexample: the ranking is not strict at a concrete input — the
demo scenario returns two features with identical primary score, identical
matched-intensity percentage and identical peptide index at ranks 1 and 2,
so the list is not ordered by the strictly-descending key chain the claim
states, and that key chain does not determine the order between them. -/
theorem score_strict_ranking_counterexample :
    ¬ List.Chain' (fun a b => featLtB a b = true) (score demoDb demoSpec demoCfg) := by
  rw [← chainB_iff]
  decide

/-- C3 (amended): within the feature list returned by `score` for one
spectrum, candidates are ordered by non-increasing primary score, with ties
broken by non-increasing matched-intensity percentage and then by
non-decreasing peptide index, and consecutively rank-numbered from 1;
features equal on all three keys may occupy adjacent ranks in either
order. -/
theorem score_ranking_sorted
    (db : IndexedDatabase) (spectrum : ProcessedSpectrum) (cfg : ScorerConfig) :
    List.Chain' (fun a b => featLeB a b = true) (score db spectrum cfg) ∧
      (score db spectrum cfg).map Feature.rank =
        List.range' 1 (score db spectrum cfg).length := by
  constructor
  · unfold score
    exact chain'_assignRanks 1 ((chain'_sortByLe featLeB_total _).take _)
  · show (score db spectrum cfg).map Feature.rank = _
    unfold score
    rw [map_rank_assignRanks, length_assignRanks]

unseal Rat.add Rat.mul Rat.inv Rat.sub in
/-- C9: at a concrete (database, spectrum) input the ranked feature list
returned by `score` contains the same peptide index at two distinct ranks —
one feature per precursor neutral-mass hypothesis that passes
`min_matched_peaks` — so `report_psms` bounds the number of returned
hypotheses, not the number of distinct peptides. -/
theorem score_repeats_peptide_across_ranks :
    (score demoDb demoSpec demoCfg).map Feature.idx = [demoPeptide.ix, demoPeptide.ix] ∧
      (score demoDb demoSpec demoCfg).map Feature.rank = [1, 2] ∧
      demoSpec.precursor_masses.length = 2 ∧
      demoCfg.report_psms = 2 ∧ demoDb.entries.length = 1 := by
  refine ⟨?_, ?_, rfl, rfl, rfl⟩ <;> decide

/-- C10: every feature freshly constructed by `score` has its spectrum-,
peptide- and protein-level q-value fields initialized to 1 and its aligned
and predicted retention-time fields initialized to 0. -/
theorem score_initializes_fields
    (db : IndexedDatabase) (spectrum : ProcessedSpectrum) (cfg : ScorerConfig)
    (f : Feature) (hf : f ∈ score db spectrum cfg) :
    f.spectrum_q = 1 ∧ f.peptide_q = 1 ∧ f.protein_q = 1 ∧
      f.aligned_rt = 0 ∧ f.predicted_rt = 0 := by
  obtain ⟨m, _, p, _, r, hr, _⟩ := score_mem_shape hf
  subst hr
  exact ⟨rfl, rfl, rfl, rfl, rfl⟩

unseal Rat.add Rat.mul Rat.inv Rat.sub in
/-- Witness for C10: the head feature of the demo scenario carries the
initial q-values and retention-time fields. -/
theorem score_initializes_fields_witness :
    ((score demoDb demoSpec demoCfg).headD default).spectrum_q = 1 ∧
      ((score demoDb demoSpec demoCfg).headD default).peptide_q = 1 ∧
      ((score demoDb demoSpec demoCfg).headD default).protein_q = 1 ∧
      ((score demoDb demoSpec demoCfg).headD default).aligned_rt = 0 ∧
      ((score demoDb demoSpec demoCfg).headD default).predicted_rt = 0 :=
  score_initializes_fields demoDb demoSpec demoCfg _ (by decide)

/-- Modelled from the spec: one invocation of the Scorer observed together
with the state of its inputs afterwards — the Scorer has no side effect
beyond returning freshly constructed features (§4.4), so the post-state of
the database and the query spectrum is their input state. -/
def scoreInvocation (db : IndexedDatabase) (spectrum : ProcessedSpectrum)
    (cfg : ScorerConfig) : List Feature × IndexedDatabase × ProcessedSpectrum :=
  (score db spectrum cfg, db, spectrum)

/-- C6: `score` is deterministic and side-effect-free — two invocations on
equal inputs return identical ranked feature lists, and an invocation
leaves the database and the query spectrum unchanged. -/
theorem score_deterministic_and_pure
    (db₁ db₂ : IndexedDatabase) (spectrum₁ spectrum₂ : ProcessedSpectrum)
    (cfg₁ cfg₂ : ScorerConfig)
    (hdb : db₁ = db₂) (hspec : spectrum₁ = spectrum₂) (hcfg : cfg₁ = cfg₂) :
    scoreInvocation db₁ spectrum₁ cfg₁ = scoreInvocation db₂ spectrum₂ cfg₂ ∧
      (scoreInvocation db₁ spectrum₁ cfg₁).2.1 = db₁ ∧
      (scoreInvocation db₁ spectrum₁ cfg₁).2.2 = spectrum₁ := by
  subst hdb; subst hspec; subst hcfg
  exact ⟨rfl, rfl, rfl⟩

/-- Witness for C6: the two demo invocations coincide and leave the inputs
unchanged. -/
theorem score_deterministic_and_pure_witness :
    scoreInvocation demoDb demoSpec demoCfg = scoreInvocation demoDb demoSpec demoCfg ∧
      (scoreInvocation demoDb demoSpec demoCfg).2.1 = demoDb ∧
      (scoreInvocation demoDb demoSpec demoCfg).2.2 = demoSpec :=
  score_deterministic_and_pure demoDb demoDb demoSpec demoSpec demoCfg demoCfg rfl rfl rfl

/-! ### FDR Estimator (target-decoy competition) -/

/-- Modelled from the spec: a scored PSM as the FDR estimator sees it
(§4.5): a score, a target/decoy label and the q-value field the estimator
writes. -/
structure Psm where
  score : ℚ
  decoy : Bool
  q_value : ℚ
deriving DecidableEq, Repr

/-- Running decoy/target counts over a rank-ordered PSM list; emits the raw
ratio decoys≤r / targets≤r at every rank, falling back to 1 when a rank has
zero targets (§4.5 "fails silently into q-value = 1.0"). -/
def runningRatios (d t : Nat) : List Psm → List ℚ
  | [] => []
  | p :: ps =>
    let d' := if p.decoy then d + 1 else d
    let t' := if p.decoy then t else t + 1
    (if t' = 0 then 1 else (d' : ℚ) / (t' : ℚ)) :: runningRatios d' t' ps

/-- Modelled from the spec: the raw FDR ratio list of a rank-ordered PSM
collection (§4.5). -/
def fdrRatios (psms : List Psm) : List ℚ := runningRatios 0 0 psms

/-- Minimum of a rational list (`none` on the empty list). -/
def minQ? : List ℚ → Option ℚ
  | [] => none
  | x :: xs => some (match minQ? xs with | none => x | some m => min x m)

/-- Suffix minima: entry `r` is the minimum of the input entries at
positions ≥ `r` (the standard step-down correction). -/
def suffixMins : List ℚ → List ℚ
  | [] => []
  | x :: xs =>
    match suffixMins xs with
    | [] => [x]
    | y :: ys => min x y :: y :: ys

/-- Descending-score order on PSMs. -/
def psmLeB (a b : Psm) : Bool := decide (b.score ≤ a.score)

/-- Modelled from the spec: `estimate(psm_collection)` (§4.5): sort the
PSMs by descending score, compute running decoy/target counts, and assign
each rank the minimum raw ratio over all ranks at or below it, written into
the PSM's q-value field. -/
def estimate (psms : List Psm) : List Psm :=
  let sorted := sortByLe psmLeB psms
  List.zipWith (fun p q => { p with q_value := q }) sorted (suffixMins (fdrRatios sorted))

theorem length_runningRatios (d t : Nat) (l : List Psm) :
    (runningRatios d t l).length = l.length := by
  induction l generalizing d t with
  | nil => rfl
  | cons p ps ih => simp [runningRatios, ih]

theorem length_suffixMins (l : List ℚ) : (suffixMins l).length = l.length := by
  induction l with
  | nil => rfl
  | cons x xs ih =>
    simp only [suffixMins]
    cases hsm : suffixMins xs with
    | nil =>
      have h0 : xs.length = 0 := by rw [← ih, hsm]; rfl
      show ([x]).length = (x :: xs).length
      simp [h0]
    | cons y ys =>
      rw [hsm] at ih
      show (min x y :: y :: ys).length = (x :: xs).length
      simp only [List.length_cons] at ih ⊢
      omega

theorem head?_suffixMins (l : List ℚ) : (suffixMins l).head? = minQ? l := by
  induction l with
  | nil => rfl
  | cons x xs ih =>
    simp only [suffixMins, minQ?]
    cases hsm : suffixMins xs with
    | nil =>
      have hxs : xs = [] := by
        have := length_suffixMins xs
        rw [hsm] at this
        exact List.length_eq_zero.mp this.symm
      subst hxs
      rfl
    | cons y ys =>
      rw [hsm] at ih
      simp only [List.head?_cons] at ih
      simp only [List.head?_cons]
      rw [show minQ? xs = some y from ih.symm]

theorem getElem?_suffixMins (l : List ℚ) (r : Nat) :
    (suffixMins l)[r]? = minQ? (l.drop r) := by
  induction l generalizing r with
  | nil => simp [suffixMins, minQ?]
  | cons x xs ih =>
    cases r with
    | zero =>
      have hh := head?_suffixMins (x :: xs)
      rw [List.drop_zero, ← hh]
      cases hs : suffixMins (x :: xs) <;> simp [hs]
    | succ r =>
      simp only [suffixMins]
      cases hsm : suffixMins xs with
      | nil =>
        have hxs : xs = [] := by
          have := length_suffixMins xs
          rw [hsm] at this
          exact List.length_eq_zero.mp this.symm
        subst hxs
        simp [minQ?]
      | cons y ys =>
        have := ih r
        rw [hsm] at this
        simpa using this

theorem chain'_suffixMins (l : List ℚ) :
    List.Chain' (· ≤ ·) (suffixMins l) := by
  induction l with
  | nil => simp [suffixMins]
  | cons x xs ih =>
    simp only [suffixMins]
    cases hsm : suffixMins xs with
    | nil => simp
    | cons y ys =>
      rw [hsm] at ih
      exact List.chain'_cons.mpr ⟨min_le_right x y, ih⟩

theorem map_qvalue_zipSet (l₁ : List Psm) (l₂ : List ℚ) (h : l₂.length ≤ l₁.length) :
    (List.zipWith (fun p q => { p with q_value := q }) l₁ l₂).map Psm.q_value = l₂ := by
  induction l₁ generalizing l₂ with
  | nil =>
    have : l₂ = [] := List.length_eq_zero.mp (Nat.le_zero.mp (by simpa using h))
    subst this
    rfl
  | cons p ps ih =>
    cases l₂ with
    | nil => rfl
    | cons q qs =>
      simp only [List.zipWith_cons_cons, List.map_cons]
      rw [ih qs (by simpa using h)]

theorem estimate_qvalues_eq (psms : List Psm) :
    (estimate psms).map Psm.q_value = suffixMins (fdrRatios (sortByLe psmLeB psms)) := by
  unfold estimate
  apply map_qvalue_zipSet
  rw [length_suffixMins]
  unfold fdrRatios
  rw [length_runningRatios, length_sortByLe]

/-- C4: the FDR estimator assigns, at every rank `r` of the descending-score
ordering, a q-value equal to the minimum over all ranks ≥ r of the running
ratio decoys≤rank / targets≤rank, and the assigned q-values are
monotonically non-decreasing as rank increases. -/
theorem estimate_qvalues_minimum_and_monotone (psms : List Psm) (r : Nat) :
    ((estimate psms).map Psm.q_value)[r]? =
        minQ? ((fdrRatios (sortByLe psmLeB psms)).drop r) ∧
      List.Chain' (· ≤ ·) ((estimate psms).map Psm.q_value) := by
  rw [estimate_qvalues_eq]
  exact ⟨getElem?_suffixMins _ r, chain'_suffixMins _⟩

/-! ### Decoy generation -/

/-- Modelled from the spec: the deterministic, reversible decoy
transformation of one target peptide sequence — sequence reversal excluding
the terminal anchor residues (§4.1): the first and the last residue stay in
place, the interior is reversed. -/
def decoyTransform : List Char → List Char
  | [] => []
  | [a] => [a]
  | a :: rest => a :: (rest.dropLast.reverse ++ rest.drop (rest.length - 1))

/-- Modelled from the spec: decoy generation over the target peptide
sequences of one database build: every target is transformed by
`decoyTransform`; a decoy that collides with any target sequence of the
same build is dropped, not retried (§4.1). -/
def generateDecoys (targets : List (List Char)) : List (List Char) :=
  (targets.map decoyTransform).filter (fun d => ! targets.contains d)

/-- C5: decoy generation is deterministic — the same targets yield the same
decoy set — and collision-free: no generated decoy sequence equals any
target sequence of the same database build. -/
theorem generateDecoys_deterministic_and_collision_free
    (ts₁ ts₂ : List (List Char)) (d : List Char)
    (heq : ts₁ = ts₂) (hd : d ∈ generateDecoys ts₁) :
    generateDecoys ts₁ = generateDecoys ts₂ ∧ d ∉ ts₁ := by
  subst heq
  refine ⟨rfl, fun hmem => ?_⟩
  have hkeep := (List.mem_filter.mp hd).2
  have hc : ts₁.contains d = true := List.elem_iff.mpr hmem
  rw [hc] at hkeep
  simp at hkeep

/-- Witness for C5: the decoy of `GASK` is `GSAK`, which is produced and
differs from every target of its build. -/
theorem generateDecoys_deterministic_and_collision_free_witness :
    generateDecoys [['G', 'A', 'S', 'K']] = generateDecoys [['G', 'A', 'S', 'K']] ∧
      ['G', 'S', 'A', 'K'] ∉ [['G', 'A', 'S', 'K']] :=
  generateDecoys_deterministic_and_collision_free _ _ _ rfl (by decide)

/-! ### Database build -/

/-- Modelled from the spec: the fatal configuration error raised before any
digestion or indexing work begins (§7). -/
structure ConfigError where
  message : String
deriving DecidableEq, Repr

/-- Modelled from the spec: a FASTA protein record (§3). -/
structure Protein where
  accession : String
  sequence : List Char
deriving DecidableEq, Repr

/-- Modelled from the spec: the digestion configuration (§6). -/
structure EnzymeConfig where
  missed_cleavages : Nat
  min_len : Nat
  max_len : Nat
  cleave_at : List Char
  restrict : Option Char
  c_terminal : Bool
deriving DecidableEq, Repr

/-- Modelled from the spec: the modification configuration, reduced to the
static per-residue mass deltas; the combinatorial variable-modification
expansion (§4.2) is not consulted by any property verified here. -/
structure ModConfig where
  static_mods : List (Char × ℚ)
deriving DecidableEq, Repr

/-- Modelled from the spec: an interior position `i` of `s` is a cleavage
boundary when the residue on the configured side belongs to the cleavage
set and the residue on the other side is not the restricted residue
(§4.1). -/
def isCleavageBoundary (enz : EnzymeConfig) (s : List Char) (i : Nat) : Bool :=
  if enz.c_terminal then
    enz.cleave_at.contains (s.getD (i - 1) ' ') &&
      !(match enz.restrict with
        | none => false
        | some c => s.getD i ' ' == c)
  else
    enz.cleave_at.contains (s.getD i ' ') &&
      !(match enz.restrict with
        | none => false
        | some c => s.getD (i - 1) ' ' == c)

/-- The interior cleavage positions of `s`, in increasing order. -/
def cleavageSites (enz : EnzymeConfig) (s : List Char) : List Nat :=
  (List.range s.length).filter (fun i => decide (0 < i) && isCleavageBoundary enz s i)

/-- Modelled from the spec: the Enzyme Digestor (§4.1): emits every
contiguous window of `s` whose two boundaries are cleavage sites (or the
sequence termini), skipping at most `missed_cleavages` interior sites,
filtered by the length bounds.  Returns (window, missed-cleavage count)
pairs. -/
def digest (enz : EnzymeConfig) (s : List Char) : List (List Char × Nat) :=
  let sites := (0 :: cleavageSites enz s) ++ [s.length]
  ((List.range sites.length).map (fun a =>
    ((List.range (enz.missed_cleavages + 1)).filterMap (fun k =>
      match sites[a + k + 1]? with
      | none => none
      | some e =>
        let b := sites.getD a 0
        let sub := (s.drop b).take (e - b)
        if enz.min_len ≤ sub.length ∧ sub.length ≤ enz.max_len then some (sub, k)
        else none)))).flatten

/-- Mass of a residue including its static modification delta. -/
def residueMassMod (mods : ModConfig) (c : Char) : ℚ :=
  residueMass c + ((mods.static_mods.filter (fun m => m.1 = c)).map (fun m => m.2)).sum

/-- Peptide mass under the static modification deltas. -/
def peptideMassMod (mods : ModConfig) (seq : List Char) : ℚ :=
  seq.foldr (fun c acc => residueMassMod mods c + acc) waterMass

/-- A database entry built from a digested (or decoy) sequence. -/
def mkEntry (mods : ModConfig) (seq : List Char) (mc : Nat) (dec : Bool) : Peptide :=
  { sequence := seq
    monoisotopic_mass := peptideMassMod mods seq
    missed_cleavages := mc
    decoy := dec
    ix := 0 }

/-- Ascending-mass order on peptide entries. -/
def massLeB (a b : Peptide) : Bool := decide (a.monoisotopic_mass ≤ b.monoisotopic_mass)

/-- Numbers the entries of the mass-sorted store with indices `n, n+1, …`. -/
def assignIx : Nat → List Peptide → List Peptide
  | _, [] => []
  | n, p :: ps => { p with ix := n } :: assignIx (n + 1) ps

/-- `n` is an exact power of two. -/
def isPowerOfTwo (n : Nat) : Bool := (List.range (n + 1)).any (fun k => n == 2 ^ k)

/-- Modelled from the spec: `build(proteins, digestor_config,
modification_config, decoys, bucket_size)` (§4.2): rejects with
`ConfigError`, before any digestion or indexing work, a bucket size that is
not a power of two or inverted length bounds; otherwise digests every
protein, appends the generated decoys, sorts all entries by monoisotopic
mass, indexes them, and returns the indexed database. -/
def build (proteins : List Protein) (enz : EnzymeConfig) (mods : ModConfig)
    (decoys : Bool) (bucket_size : Nat) : Except ConfigError IndexedDatabase :=
  if isPowerOfTwo bucket_size = false then
    Except.error ⟨"bucket_size must be a power of two"⟩
  else if enz.max_len < enz.min_len then
    Except.error ⟨"peptide length bounds are inverted"⟩
  else
    let targets := (proteins.map (fun pr => digest enz pr.sequence)).flatten
    let targetSeqs := targets.map (fun dp => dp.1)
    let decoySeqs := if decoys then generateDecoys targetSeqs else []
    let targetPeps := targets.map (fun dp => mkEntry mods dp.1 dp.2 false)
    let decoyPeps := decoySeqs.map (fun sq => mkEntry mods sq 0 true)
    Except.ok
      { entries := assignIx 0 (sortByLe massLeB (targetPeps ++ decoyPeps))
        bucket_size := bucket_size }

/-- `true` exactly on the error outcome of a database build. -/
def buildFailed : Except ConfigError IndexedDatabase → Bool
  | Except.error _ => true
  | Except.ok _ => false

/-- C7: database construction fails with `ConfigError` exactly when the
bucket size is not a power of two or the peptide length bounds are
inverted — and in that case it fails before any digestion or indexing work,
so the outcome does not depend on the protein input; for valid parameters
it returns an indexed database (`buildFailed = false`). -/
theorem build_config_validation
    (proteins : List Protein) (enz : EnzymeConfig) (mods : ModConfig)
    (decoys : Bool) (bucket_size : Nat) :
    (buildFailed (build proteins enz mods decoys bucket_size)
        = (!isPowerOfTwo bucket_size || decide (enz.max_len < enz.min_len))) ∧
      (buildFailed (build proteins enz mods decoys bucket_size) = true →
        build proteins enz mods decoys bucket_size
          = build [] enz mods decoys bucket_size) := by
  by_cases h1 : isPowerOfTwo bucket_size = false
  · constructor
    · simp [build, buildFailed, h1]
    · intro _
      simp [build, h1]
  · have h1' : isPowerOfTwo bucket_size = true := by
      cases h : isPowerOfTwo bucket_size
      · exact absurd h h1
      · rfl
    by_cases h2 : enz.max_len < enz.min_len
    · constructor
      · simp [build, buildFailed, h1, h2, h1']
      · intro _
        simp [build, h1, h2]
    · constructor
      · simp [build, buildFailed, h1, h2, h1']
      · intro hfail
        exfalso
        simp [build, buildFailed, h1, h2] at hfail

/-- A demo trypsin-like digestion configuration. -/
def demoEnzyme : EnzymeConfig :=
  { missed_cleavages := 1
    min_len := 1
    max_len := 5
    cleave_at := ['K', 'R']
    restrict := some 'P'
    c_terminal := true }

/-- A demo modification configuration with no static deltas. -/
def demoMods : ModConfig := { static_mods := [] }

/-- Witness for C7: bucket size 3 is rejected independently of the protein
input, and bucket size 16 with well-ordered length bounds builds a
database. -/
theorem build_config_validation_witness :
    (buildFailed (build [] demoEnzyme demoMods true 3)
        = (!isPowerOfTwo 3 || decide (demoEnzyme.max_len < demoEnzyme.min_len))) ∧
      build [⟨"P1", ['G', 'K']⟩] demoEnzyme demoMods true 3
          = build [] demoEnzyme demoMods true 3 ∧
      buildFailed (build [⟨"P1", ['G', 'K']⟩] demoEnzyme demoMods true 16) = false :=
  ⟨(build_config_validation [] demoEnzyme demoMods true 3).1,
   (build_config_validation [⟨"P1", ['G', 'K']⟩] demoEnzyme demoMods true 3).2 (by decide),
   ((build_config_validation [⟨"P1", ['G', 'K']⟩] demoEnzyme demoMods true 16).1).trans
     (by decide)⟩

end Sagepy

namespace Sagepy

/-! ### LFQ Feature Map -/

/-- Modelled from the spec: the LFQ settings (§6); `rt_tolerance` is the
half-width of the aligned-RT window of §4.7. -/
structure LfqSettings where
  spectral_angle : ℚ
  ppm_tolerance : ℚ
  rt_tolerance : ℚ
  combine_charge_states : Bool
  mobility_pct_tolerance : ℚ
deriving DecidableEq, Repr

/-- Modelled from the spec: one observed MS1 isotope envelope of one run:
monoisotopic mass, retention time, ion mobility and the (m/z, intensity)
isotope peaks. -/
structure Ms1Entry where
  mass : ℚ
  rt : ℚ
  mobility : ℚ
  envelope : List (ℚ × ℚ)
deriving DecidableEq, Repr

/-- Modelled from the spec: a feature group — the peptide-ion key of the
LFQ table (§3) — with the theoretical isotope-envelope intensities used for
the spectral-angle gate. -/
structure FeatureGroup where
  sequence : List Char
  charge : Nat
  decoy : Bool
  mass : ℚ
  rt : ℚ
  mobility : ℚ
  theoretical_envelope : List ℚ
deriving DecidableEq, Repr

def dotQ (a b : List ℚ) : ℚ := (List.zipWith (fun x y => x * y) a b).sum

def normSq (a : List ℚ) : ℚ := dotQ a a

/-- Modelled from the spec: the spectral-angle similarity between the
theoretical and an observed isotope envelope, embedded as the squared
cosine similarity (a rational), which is order-isomorphic to the normalized
spectral angle for nonnegative envelopes; the configured threshold is
compared against it. -/
def spectralAngleSq (theo obs : List ℚ) : ℚ :=
  if normSq theo * normSq obs = 0 then 0
  else dotQ theo obs * dotQ theo obs / (normSq theo * normSq obs)

/-- Modelled from the spec: an MS1 envelope is accepted for a feature group
when its mass lies in the ppm window, its RT and mobility lie in their
tolerance windows, and the spectral angle reaches the threshold (§4.7). -/
def ms1Accepts (s : LfqSettings) (g : FeatureGroup) (e : Ms1Entry) : Bool :=
  decide (g.mass * (1 - s.ppm_tolerance / 1000000) ≤ e.mass) &&
  decide (e.mass ≤ g.mass * (1 + s.ppm_tolerance / 1000000)) &&
  decide (g.rt - s.rt_tolerance ≤ e.rt) &&
  decide (e.rt ≤ g.rt + s.rt_tolerance) &&
  decide (g.mobility - g.mobility * s.mobility_pct_tolerance / 100 ≤ e.mobility) &&
  decide (e.mobility ≤ g.mobility + g.mobility * s.mobility_pct_tolerance / 100) &&
  decide (s.spectral_angle ≤ spectralAngleSq g.theoretical_envelope
    (e.envelope.map (fun pk => pk.2)))

/-- Modelled from the spec: per-run quantification of one feature group
(§4.7): the first accepted envelope's peak intensities are integrated into
one scalar; a run with no accepted envelope yields a missing value
(`none`), never a number. -/
def quantifyRun (s : LfqSettings) (g : FeatureGroup) (run : List Ms1Entry) : Option ℚ :=
  match run.filter (ms1Accepts s g) with
  | [] => none
  | e :: _ => some (totalIntensity e.envelope)

/-- Modelled from the spec: the per-run intensity columns of one feature
group's row of the LFQ output table (§6), one entry per input run, missing
where unmatched. -/
def quantify (s : LfqSettings) (g : FeatureGroup) (runs : List (List Ms1Entry)) :
    List (Option ℚ) :=
  runs.map (quantifyRun s g)

/-- C8: for every feature group and every run in which no MS1 isotope
envelope is accepted within the mass/RT/mobility tolerance window with
spectral angle at or above the threshold, the reported per-run intensity is
the missing value, which is distinct from the numeric value zero. -/
theorem quantifyRun_missing_not_zero
    (s : LfqSettings) (g : FeatureGroup) (run : List Ms1Entry)
    (h : ∀ e ∈ run, ms1Accepts s g e = false) :
    quantifyRun s g run = none ∧ quantifyRun s g run ≠ some 0 := by
  have hf : run.filter (ms1Accepts s g) = [] := by
    rw [List.filter_eq_nil_iff]
    intro e he
    simp [h e he]
  constructor
  · simp [quantifyRun, hf]
  · simp [quantifyRun, hf]

/-- A demo feature group at mass 1000. -/
def demoGroup : FeatureGroup :=
  { sequence := ['G', 'K']
    charge := 2
    decoy := false
    mass := 1000
    rt := 10
    mobility := 1
    theoretical_envelope := [3, 1] }

/-- Demo LFQ settings: 10 ppm mass window. -/
def demoSettings : LfqSettings :=
  { spectral_angle := 7/10
    ppm_tolerance := 10
    rt_tolerance := 1
    combine_charge_states := false
    mobility_pct_tolerance := 5 }

/-- A demo run whose only MS1 envelope sits 1000 ppm away from the feature
group's mass — outside the 10 ppm window. -/
def demoRunB : List Ms1Entry :=
  [{ mass := 1001, rt := 10, mobility := 1, envelope := [(1001, 300), (1002, 100)] }]

unseal Rat.add Rat.mul Rat.inv Rat.sub in
/-- Witness for C8: the shifted run is reported missing, not zero. -/
theorem quantifyRun_missing_not_zero_witness :
    quantifyRun demoSettings demoGroup demoRunB = none ∧
      quantifyRun demoSettings demoGroup demoRunB ≠ some 0 :=
  quantifyRun_missing_not_zero demoSettings demoGroup demoRunB (by decide)

end Sagepy
